import Mathlib

/-!
Verification development for the bigacme certificate-renewal system.

The development shallowly embeds the parts of the code base that the
specification talks about:

* `src/bigacme/ca.py` — ACME challenge selection (`_return_http_challenges`),
  its generalisation to an arbitrary desired challenge type
  (`_return_desired_challenges`, exercised by the unit tests), the polling /
  finalisation error handling of `get_certificate_from_ca`, and the chain
  integrity guard `_validate_cert_chain`.
* `src/bigacme/lb.py` — selection of the active unit of a redundant
  load-balancer pair (`LoadBalancer.__init__`) and challenge publication
  (`send_challenge`).
* the certificate record / store / scanner module (exercised by
  `src/tests/unit/test_cert.py`); its implementation file is not part of the
  sources, so those operations are modelled from the specification, as noted
  in their doc comments.

Machine-level details (file descriptors, SOAP transport, TLS) are abstracted:
files become an association list from structured paths to contents, the
remote devices become explicit state values, and exceptions become `Except`.
-/

set_option autoImplicit false

namespace Bigacme

/-! ## CA data model (`src/bigacme/ca.py`) -/

/-- One challenge offered inside an ACME authorization
(`messages.ChallengeBody` as the code uses it): the code inspects only the
challenge type (`subchallenge.chall.typ`); `token` stands for the rest of the
challenge object, which is carried around opaquely. -/
structure ChallengeBody where
  typ : String
  token : String
deriving DecidableEq, Repr

/-- An authorization resource as consumed by the challenge selection code:
`challenge.body.identifier.value` (the domain) and `challenge.body.challenges`
(the offered challenges). -/
structure AuthzResource where
  domain : String
  challenges : List ChallengeBody
deriving DecidableEq, Repr

/-- The CA error classes of `ca.py`.  `noDesiredChallenge` is the
`NoHTTPChallenge` / `NoDesiredChallenge` class (the sources name it
`NoHTTPChallenge`, the unit tests and the spec `NoDesiredChallenge`);
`getCertificateFailed` is `GetCertificateFailedError`, carrying the exception
message. -/
inductive CAError where
  | noDesiredChallenge
  | getCertificateFailed (msg : String)
deriving DecidableEq, Repr

/-- The challenges of `a` whose type is `typ`, paired with the domain —
the inner loop of `_return_http_challenges`, which appends
`[challenge.body.identifier.value, subchallenge]` for every subchallenge of
the wanted type. -/
def selectDesired (typ : String) (a : AuthzResource) : List (String × ChallengeBody) :=
  (a.challenges.filter fun c => c.typ == typ).map fun c => (a.domain, c)

/-- Modelled from the spec (and the unit tests): `_return_desired_challenges`
is the generalisation of the in-source `_return_http_challenges` to an
arbitrary desired challenge type; only its tests are in the sources.  Per the
spec it filters each authorization's offered challenges to the desired type,
per hostname in request order, and raises `NoDesiredChallenge` at the first
hostname whose authorization offers no challenge of that type. -/
def _return_desired_challenges :
    List AuthzResource → String → Except CAError (List (String × ChallengeBody))
  | [], _ => .ok []
  | a :: rest, typ =>
    if (selectDesired typ a).isEmpty then
      .error .noDesiredChallenge
    else
      match _return_desired_challenges rest typ with
      | .ok tail => .ok (selectDesired typ a ++ tail)
      | .error e => .error e

/-- `_return_http_challenges` from `src/bigacme/ca.py`: walks the
authorizations in request order, collects every subchallenge whose type is
`"http-01"` and raises `NoHTTPChallenge` as soon as an authorization offered
none. -/
def _return_http_challenges :
    List AuthzResource → Except CAError (List (String × ChallengeBody))
  | [] => .ok []
  | a :: rest =>
    if (selectDesired "http-01" a).isEmpty then
      .error .noDesiredChallenge
    else
      match _return_http_challenges rest with
      | .ok tail => .ok (selectDesired "http-01" a ++ tail)
      | .error e => .error e

/-- The in-source `_return_http_challenges` is the desired-type selection
specialised to `"http-01"`. -/
theorem return_http_eq_desired (authzs : List AuthzResource) :
    _return_http_challenges authzs = _return_desired_challenges authzs "http-01" := by
  induction authzs with
  | nil => rfl
  | cons a rest ih =>
    simp only [_return_http_challenges, _return_desired_challenges, ih]

/-- Outcome of `client.poll_and_request_issuance` as observed by
`get_certificate_from_ca`: either the certificate resource together with the
fetched chain (both already PEM-dumped), or an `acme_errors.PollError`.  A
poll error carries a `timeout` flag; `detail` stands for the CA-provided
error detail the exception object may carry, which the source code never
reads. -/
inductive PollOutcome where
  | issued (cert : String) (chain : List String)
  | pollError (timeout : Bool) (detail : Option String)
deriving DecidableEq, Repr

/-- The error handling of `CertificateAuthority.get_certificate_from_ca`
(`src/bigacme/ca.py`, lines 101–122): a `PollError` with the timeout flag set
becomes `GetCertificateFailedError("Timed out while waiting for the CA to
verify the challenges")`, any other `PollError` becomes
`GetCertificateFailedError("The CA could not verify the challenges")`; on
success the PEM certificate and chain are returned. -/
def get_certificate_from_ca (outcome : PollOutcome) :
    Except CAError (String × List String) :=
  match outcome with
  | .issued cert chain => .ok (cert, chain)
  | .pollError timeout _detail =>
    if timeout then
      .error (.getCertificateFailed
        "Timed out while waiting for the CA to verify the challenges")
    else
      .error (.getCertificateFailed "The CA could not verify the challenges")

/-! ## C1: challenge selection -/

/-- The challenges selected for each hostname, when no hostname aborts the
batch: per authorization in request order, its challenges of the desired
type. -/
theorem return_desired_ok (typ : String) (authzs : List AuthzResource)
    (h : ∀ a ∈ authzs, (selectDesired typ a).isEmpty = false) :
    _return_desired_challenges authzs typ = .ok (authzs.flatMap (selectDesired typ)) := by
  induction authzs with
  | nil => rfl
  | cons a rest ih =>
    have ha : (selectDesired typ a).isEmpty = false := h a (List.mem_cons_self a rest)
    have hrest : ∀ b ∈ rest, (selectDesired typ b).isEmpty = false :=
      fun b hb => h b (List.mem_cons_of_mem a hb)
    simp only [_return_desired_challenges, ha, Bool.false_eq_true, if_false, ih hrest,
      List.flatMap_cons]

/-- The first hostname whose authorization offers no challenge of the desired
type aborts the whole batch with `NoDesiredChallenge`; the authorizations
after it are never examined (the result is the same for every tail). -/
theorem return_desired_error (typ : String) (pre : List AuthzResource)
    (bad : AuthzResource) (rest : List AuthzResource)
    (hpre : ∀ a ∈ pre, (selectDesired typ a).isEmpty = false)
    (hbad : (selectDesired typ bad).isEmpty = true) :
    _return_desired_challenges (pre ++ bad :: rest) typ = .error .noDesiredChallenge := by
  induction pre with
  | nil => simp only [List.nil_append, _return_desired_challenges, hbad, if_true]
  | cons p pre' ih =>
    have hp : (selectDesired typ p).isEmpty = false := hpre p (List.mem_cons_self p pre')
    have hpre' : ∀ a ∈ pre', (selectDesired typ a).isEmpty = false :=
      fun a ha => hpre a (List.mem_cons_of_mem p ha)
    simp only [List.cons_append, _return_desired_challenges, hp, Bool.false_eq_true,
      if_false, List.append_eq, ih hpre']

/-- Every selected pair for authorization `a` carries `a`'s domain. -/
theorem selectDesired_map_fst (typ : String) (a : AuthzResource) :
    (selectDesired typ a).map Prod.fst =
      List.replicate (selectDesired typ a).length a.domain := by
  simp [selectDesired, List.map_map, Function.comp_def, List.map_const']

/-- C1 (amended): for every desired challenge type and list of per-hostname
authorizations, when every hostname's authorization offers at least one
challenge of the desired type, selection succeeds and returns, per hostname
in request order, every challenge of the desired type that hostname offers —
in particular one entry per hostname, in request order, when each
authorization offers the type exactly once; and if any hostname's
authorization offers no challenge of the desired type, the whole batch fails
with `NoDesiredChallenge`, the first such hostname aborting the batch with a
result that does not depend on the remaining authorizations and with no
selected list produced (so nothing is partially answered). -/
theorem challenge_selection_all_or_nothing (typ : String) :
    (∀ authzs : List AuthzResource,
      (∀ a ∈ authzs, (selectDesired typ a).isEmpty = false) →
        _return_desired_challenges authzs typ = .ok (authzs.flatMap (selectDesired typ))
        ∧ ((∀ a ∈ authzs, (selectDesired typ a).length = 1) →
            (authzs.flatMap (selectDesired typ)).map Prod.fst =
              authzs.map AuthzResource.domain))
    ∧ (∀ (pre : List AuthzResource) (bad : AuthzResource) (rest : List AuthzResource),
        (∀ a ∈ pre, (selectDesired typ a).isEmpty = false) →
        (selectDesired typ bad).isEmpty = true →
          _return_desired_challenges (pre ++ bad :: rest) typ =
            .error .noDesiredChallenge) := by
  refine ⟨fun authzs h => ⟨return_desired_ok typ authzs h, fun hone => ?_⟩,
    fun pre bad rest hpre hbad => return_desired_error typ pre bad rest hpre hbad⟩
  induction authzs with
  | nil => rfl
  | cons a rest ih =>
    have ha : (selectDesired typ a).length = 1 := hone a (List.mem_cons_self a rest)
    have hrest : ∀ b ∈ rest, (selectDesired typ b).length = 1 :=
      fun b hb => hone b (List.mem_cons_of_mem a hb)
    have hrest' : ∀ b ∈ rest, (selectDesired typ b).isEmpty = false :=
      fun b hb => by
        have := hrest b hb
        cases hsel : selectDesired typ b with
        | nil => rw [hsel] at this; simp at this
        | cons x xs => rfl
    simp only [List.flatMap_cons, List.map_append, List.map_cons,
      selectDesired_map_fst, ha, List.replicate_one, List.singleton_append,
      ih (fun b hb => hrest' b hb) hrest]

/-- An authorization whose challenge list holds the desired type twice:
`_return_desired_challenges` selects both, so a single hostname yields two
selected challenges, refuting "exactly one challenge of the desired type per
hostname". -/
theorem challenge_selection_two_for_one_hostname :
    _return_desired_challenges
      [⟨"domene1.no", [⟨"http-01", "tok-a"⟩, ⟨"http-01", "tok-b"⟩]⟩] "http-01" =
      .ok [("domene1.no", ⟨"http-01", "tok-a"⟩), ("domene1.no", ⟨"http-01", "tok-b"⟩)] := by
  rfl

/-- Concrete instance of the amended selection contract: two domains, the
desired type offered once each, selected in request order. -/
theorem challenge_selection_witness :
    _return_desired_challenges
      [⟨"domene1.no", [⟨"dns-01", "t1"⟩, ⟨"http-01", "t2"⟩]⟩,
       ⟨"domene2.no", [⟨"http-01", "t3"⟩]⟩] "http-01" =
      .ok [("domene1.no", ⟨"http-01", "t2"⟩), ("domene2.no", ⟨"http-01", "t3"⟩)] := by
  have h := (challenge_selection_all_or_nothing "http-01").1
    [⟨"domene1.no", [⟨"dns-01", "t1"⟩, ⟨"http-01", "t2"⟩]⟩,
     ⟨"domene2.no", [⟨"http-01", "t3"⟩]⟩] (by decide)
  exact h.1.trans (by rfl)

/-! ## C2: polling / finalisation failure semantics -/

/-- C2 (amended): `get_certificate_from_ca` maps a timed-out poll to
`GetCertificateFailed` with the fixed message "Timed out while waiting for
the CA to verify the challenges", and every other poll error to
`GetCertificateFailed` with the fixed message "The CA could not verify the
challenges", regardless of any CA-provided detail; a successful poll returns
the certificate and chain. -/
theorem poll_failure_semantics :
    (∀ d : Option String,
      get_certificate_from_ca (.pollError true d) =
        .error (.getCertificateFailed
          "Timed out while waiting for the CA to verify the challenges"))
    ∧ (∀ d : Option String,
      get_certificate_from_ca (.pollError false d) =
        .error (.getCertificateFailed "The CA could not verify the challenges"))
    ∧ (∀ (cert : String) (chain : List String),
      get_certificate_from_ca (.issued cert chain) = .ok (cert, chain)) :=
  ⟨fun _ => rfl, fun _ => rfl, fun _ _ => rfl⟩

/-- The claim's exact failure messages are refuted on concrete poll errors:
the timeout message of the code is capitalised ("Timed out …", not
"timed out …"), and a non-timeout poll error carrying the CA detail "what"
still yields the fixed message, not "what". -/
theorem poll_failure_messages_counterexample :
    get_certificate_from_ca (.pollError true none) =
      .error (.getCertificateFailed
        "Timed out while waiting for the CA to verify the challenges")
    ∧ "Timed out while waiting for the CA to verify the challenges" ≠
        "timed out while waiting for the CA to verify the challenges"
    ∧ get_certificate_from_ca (.pollError false (some "what")) =
      .error (.getCertificateFailed "The CA could not verify the challenges")
    ∧ "The CA could not verify the challenges" ≠ "what" :=
  ⟨rfl, by decide, rfl, by decide⟩

/-! ## C3: chain integrity guard

`_validate_cert_chain` is exercised by `src/tests/unit/test_ca.py` but its
implementation is not among the sources, so it is modelled from the spec. -/

/-- A delimited PEM block: the label of its `-----BEGIN <label>-----`
delimiter and the base64 body between the delimiters.  The unit tests feed
the guard blocks whose bodies are not real DER material and expect the
two-certificate blob to pass, so well-formedness of a block as a certificate
structure is carried by the label. -/
structure PemBlock where
  label : String
  body : String
deriving DecidableEq, Repr

/-- Whether a delimited block is a certificate structure: its PEM label is
`CERTIFICATE` (a `PRIVATE KEY` block, for instance, is not). -/
def isCertificateBlock (b : PemBlock) : Bool := b.label == "CERTIFICATE"

/-- The integrity error of the guard: `ReceivedInvalidCertificateError`. -/
inductive CertChainError where
  | receivedInvalidCertificate
deriving DecidableEq, Repr

/-- Modelled from the spec: `_validate_cert_chain` is absent from the
sources (only its unit tests are).  Per the spec it "parses every delimited
block in the blob and fails with `ReceivedInvalidCertificate` if any block is
not a well-formed certificate structure"; the blob is modelled as its list of
delimited blocks. -/
def _validate_cert_chain : List PemBlock → Except CertChainError Unit
  | [] => .ok ()
  | b :: rest =>
    if isCertificateBlock b then _validate_cert_chain rest
    else .error .receivedInvalidCertificate

/-- C3: `_validate_cert_chain` fails with `ReceivedInvalidCertificate` if and
only if some delimited block of the blob is not a certificate structure; in
particular it accepts the two-certificate blob of the unit tests and rejects
the blob holding one certificate block and one private-key block. -/
theorem validate_chain_iff_all_certificates :
    (∀ blocks : List PemBlock,
      _validate_cert_chain blocks = .error .receivedInvalidCertificate ↔
        ∃ b ∈ blocks, isCertificateBlock b = false)
    ∧ _validate_cert_chain
        [⟨"CERTIFICATE", "tralallalalal"⟩, ⟨"CERTIFICATE", "tralallalalal"⟩] = .ok ()
    ∧ _validate_cert_chain
        [⟨"CERTIFICATE", "tralallalalal"⟩, ⟨"PRIVATE KEY", "tralallalalal"⟩] =
        .error .receivedInvalidCertificate := by
  refine ⟨fun blocks => ?_, rfl, rfl⟩
  induction blocks with
  | nil => simp [_validate_cert_chain]
  | cons b rest ih =>
    by_cases hb : isCertificateBlock b
    · simp [_validate_cert_chain, hb, ih]
    · simp only [Bool.not_eq_true] at hb
      simp [_validate_cert_chain, hb]

/-- Instance of the validation contract at a concrete mixed blob, through the
general theorem. -/
theorem validate_chain_witness :
    _validate_cert_chain
      [⟨"CERTIFICATE", "aaa"⟩, ⟨"RSA PRIVATE KEY", "bbb"⟩] =
      .error .receivedInvalidCertificate :=
  (validate_chain_iff_all_certificates.1
    [⟨"CERTIFICATE", "aaa"⟩, ⟨"RSA PRIVATE KEY", "bbb"⟩]).2 (by decide)

/-! ## Load balancer (`src/bigacme/lb.py`) -/

/-- What one Big-IP unit answers to the two system queries the constructor
makes: `System.Failover.get_failover_state` and
`System.SystemInfo.get_uptime`.  An `Except.error` is a
`bigsuds.OperationFailed` exception carrying its message. -/
structure UnitState where
  failoverState : Except String String
  uptime : Except String Nat
deriving Repr

/-- Which unit of the pair the constructor stored as `self.bigip`. -/
inductive LBChoice where
  | unit1
  | unit2
deriving DecidableEq, Repr

/-- `CouldNotConnectToBalancerError` with its message. -/
inductive LBError where
  | couldNotConnect (msg : String)
deriving DecidableEq, Repr

/-- The message raised when neither unit of a configured pair reports
active. -/
def noneActiveMsg : String :=
  "None of the available devices were active. See the log for more details."

/-- The guard of the Python `if` inside each `try`: the failover query
succeeded and answered `FAILOVER_STATE_ACTIVE`.  A failed query
(`OperationFailed`) is logged and falls through to the next unit. -/
def reportsActive (q : Except String String) : Bool :=
  match q with
  | .ok s => s == "FAILOVER_STATE_ACTIVE"
  | .error _ => false

/-- Second half of the two-unit branch of `LoadBalancer.__init__`: try unit
2's failover state; if it is not reachable and active,
`CouldNotConnectToBalancerError` is raised. -/
def _trySecondUnit (u2 : UnitState) : Except LBError LBChoice :=
  if reportsActive u2.failoverState then .ok .unit2
  else .error (.couldNotConnect noneActiveMsg)

/-- `LoadBalancer.__init__` (`src/bigacme/lb.py`, lines 50–83), reduced to
the device-selection decision: with a second unit configured, unit 1's
failover state is queried first and unit 1 is used when it reports active; on
a failed query or a non-active answer, unit 2 is tried the same way; if
neither reachable unit reports active the constructor raises
`CouldNotConnectToBalancerError` and no device handle is produced.  With a
single unit, the unit is used if its uptime query succeeds, and the
`OperationFailed` message is wrapped in `CouldNotConnectToBalancerError`
otherwise. -/
def loadBalancerInit (u1 : UnitState) (u2 : Option UnitState) : Except LBError LBChoice :=
  match u2 with
  | some v =>
    if reportsActive u1.failoverState then .ok .unit1
    else _trySecondUnit v
  | none =>
    match u1.uptime with
    | .ok _ => .ok .unit1
    | .error e => .error (.couldNotConnect e)

/-- C9: over a configured redundant pair the constructor connects to the
first unit reporting active — unit 1 first, a failed or non-active answer
from unit 1 never blocking selection of unit 2 — and when neither unit is
reachable and reporting active it fails with
`CouldNotConnectToBalancerError`, producing no device handle. -/
theorem device_selection_redundant_pair :
    (∀ u1 v : UnitState,
      loadBalancerInit u1 (some v) =
        if reportsActive u1.failoverState then .ok .unit1
        else if reportsActive v.failoverState then .ok .unit2
        else .error (.couldNotConnect noneActiveMsg))
    ∧ (∀ u1 v : UnitState, ∀ e : String, u1.failoverState = .error e →
        reportsActive v.failoverState = true →
          loadBalancerInit u1 (some v) = .ok .unit2)
    ∧ (∀ u1 v : UnitState,
        reportsActive u1.failoverState = false →
        reportsActive v.failoverState = false →
          loadBalancerInit u1 (some v) = .error (.couldNotConnect noneActiveMsg)) := by
  refine ⟨fun u1 v => ?_, fun u1 v e he hv => ?_, fun u1 v h1 h2 => ?_⟩
  · by_cases h1 : reportsActive u1.failoverState
    · simp [loadBalancerInit, h1]
    · simp only [Bool.not_eq_true] at h1
      by_cases h2 : reportsActive v.failoverState
      · simp [loadBalancerInit, _trySecondUnit, h1, h2]
      · simp only [Bool.not_eq_true] at h2
        simp [loadBalancerInit, _trySecondUnit, h1, h2]
  · have h1 : reportsActive u1.failoverState = false := by
      rw [he]; rfl
    simp [loadBalancerInit, _trySecondUnit, h1, hv]
  · simp [loadBalancerInit, _trySecondUnit, h1, h2]

/-- The selection applied to a concrete pair whose first unit's query fails
with an `OperationFailed` and whose second unit reports active: unit 2 is
chosen. -/
theorem device_selection_witness :
    loadBalancerInit
      ⟨.error "Could not get failover status", .ok 7⟩
      (some ⟨.ok "FAILOVER_STATE_ACTIVE", .ok 9⟩) = .ok .unit2 :=
  device_selection_redundant_pair.2.1
    ⟨.error "Could not get failover status", .ok 7⟩
    ⟨.ok "FAILOVER_STATE_ACTIVE", .ok 9⟩
    "Could not get failover status" rfl (by decide)

/-! ## Certificate records and their store

The record module (`bigacme.cert`, exercised by `src/tests/unit/test_cert.py`)
is not among the sources; every definition in this section is modelled from
the specification, with the unit tests fixing names and concrete formats
(status strings, path scheme, backup scheme). -/

/-- Modelled from the spec: a certificate record.  `status` is one of the
status strings the tests observe ("New", "To be installed", "Installed");
`cert`/`chain` are the PEM leaf and issuer chain, absent until first
issuance; `notBefore`/`notAfter` are the validity instants of `cert` as the
record stores them (time is modelled as an integer count of time units). -/
structure Certificate where
  partition : String
  name : String
  status : String
  hostnames : List String
  csr : String
  validation_method : String
  cert : Option String
  chain : List String
  notBefore : Option Int
  notAfter : Option Int
deriving DecidableEq, Repr

/-- Modelled from the spec: the persisted form of a record (the JSON file).
It matches `Certificate` field for field except that `validation_method` may
be absent — records written before the field existed. -/
structure StoredCert where
  partition : String
  name : String
  status : String
  hostnames : List String
  csr : String
  validation_method : Option String
  cert : Option String
  chain : List String
  notBefore : Option Int
  notAfter : Option Int
deriving DecidableEq, Repr

/-- Serialisation of a record for `save()`: every field written out,
`validation_method` included. -/
def serializeCert (r : Certificate) : StoredCert :=
  ⟨r.partition, r.name, r.status, r.hostnames, r.csr, some r.validation_method,
   r.cert, r.chain, r.notBefore, r.notAfter⟩

/-- Reading a persisted record back, with the schema-evolution default: an
absent `validation_method` becomes `"http-01"`. -/
def deserializeCert (s : StoredCert) : Certificate :=
  ⟨s.partition, s.name, s.status, s.hostnames, s.csr,
   s.validation_method.getD "http-01", s.cert, s.chain, s.notBefore, s.notAfter⟩

/-- A storage location.  `record partition name` stands for the record file
`./cert/<partition>_<name>.json` and `backup partition name` for the backup
file `./cert/backup/<partition>_<name>.cer`: both paths are pure functions of
the identity pair, and the two families are distinct locations. -/
inductive StorePath where
  | record (partition name : String)
  | backup (partition name : String)
deriving DecidableEq, Repr

/-- Contents of a stored file: a parsable record, or raw bytes (backup PEM
material, or a stray file that is not a record). -/
inductive FileContent where
  | json (s : StoredCert)
  | raw (s : String)
deriving DecidableEq, Repr

/-- The file store: an association list from paths to contents, reading the
most recently written entry first. -/
def FileSystem : Type := List (StorePath × FileContent)

/-- Replace-on-write: any earlier entry at `p` is dropped and the new
contents appended, so a path holds at most one current value. -/
def writeFile (fs : FileSystem) (p : StorePath) (v : FileContent) : FileSystem :=
  (fs.filter fun f => f.1 != p) ++ [(p, v)]

/-- Reading a path: the value stored at it, if any. -/
def readFile (fs : FileSystem) (p : StorePath) : Option FileContent :=
  (fs.filter fun f => f.1 == p).head?.map Prod.snd

/-- The persistence errors of the record module. -/
inductive CertStoreError where
  | certificateNotFound
  | invalidRecord
deriving DecidableEq, Repr

/-- Modelled from the spec: `save()` writes the full record to its path,
which is a pure function of `(partition, name)`, replacing any previous
contents. -/
def Certificate.save (r : Certificate) (fs : FileSystem) : FileSystem :=
  writeFile fs (.record r.partition r.name) (.json (serializeCert r))

/-- Modelled from the spec: `load(partition, name)` (`Certificate.get` in the
tests) reads the persisted record, fails with `CertificateNotFound` when no
record exists for the key, and applies the `validation_method` default. -/
def Certificate.get (fs : FileSystem) (partition name : String) :
    Except CertStoreError Certificate :=
  match readFile fs (.record partition name) with
  | none => .error .certificateNotFound
  | some (.json s) => .ok (deserializeCert s)
  | some (.raw _) => .error .invalidRecord

/-- Modelled from the spec: `aboutToExpire(days)` is true when the
certificate's not-after time is within `days` of the current time
(`notAfter − now ≤ days`); a record with no certificate is not about to
expire. -/
def Certificate.about_to_expire (r : Certificate) (days now : Int) : Bool :=
  match r.notAfter with
  | some t => t - now ≤ days
  | none => false

/-- Modelled from the spec: `oldEnough(days)` is true when the certificate's
not-before time is at least `days` in the past (`now − notBefore ≥ days`); a
record with no certificate is not old enough. -/
def Certificate.old_enough (r : Certificate) (days now : Int) : Bool :=
  match r.notBefore with
  | some t => days ≤ now - t
  | none => false

/-- Modelled from the spec: `renew(newCert, newChain)` — when a previous
`cert` exists it is written, concatenated with its chain, to the backup
location determined by `(partition, name)` (one slot, replaced on write);
then `cert`/`chain` take the new values, `status` becomes "To be installed",
and the record is persisted.  Returns the updated record and store. -/
def Certificate.renew (r : Certificate) (fs : FileSystem)
    (newCert : String) (newChain : List String) : Certificate × FileSystem :=
  let fs1 : FileSystem :=
    match r.cert with
    | some oldCert =>
      writeFile fs (.backup r.partition r.name) (.raw (oldCert ++ String.join r.chain))
    | none => fs
  let r' : Certificate :=
    { r with cert := some newCert, chain := newChain, status := "To be installed" }
  (r', r'.save fs1)

/-- Modelled from the spec: the hostname list built once at record creation —
the subject common name first when present, then the DNS
subject-alternative-names in their original order, skipping any name already
present. -/
def _get_hostnames (cn : Option String) (sans : List String) : List String :=
  sans.foldl (fun acc h => if acc.contains h then acc else acc ++ [h])
    (match cn with | some c => [c] | none => [])

/-- The renewal-side test of the scanner: installed and about to expire. -/
def needsRenewal (renewalDays now : Int) (r : Certificate) : Bool :=
  r.status == "Installed" && r.about_to_expire renewalDays now

/-- The installation-side test of the scanner: staged and old enough. -/
def needsInstall (delayedDays now : Int) (r : Certificate) : Bool :=
  r.status == "To be installed" && r.old_enough delayedDays now

/-- Modelled from the spec: the lifecycle scanner
(`get_certs_that_need_action`).  It walks the contents of the store
directory; a file that does not parse as a record is skipped; a record with
status "Installed" whose certificate is about to expire within
`renewalDays` goes to the first list (to renew), a record with status
"To be installed" whose certificate is at least `delayedDays` old goes to the
second (to install). -/
def get_certs_that_need_action :
    List FileContent → Int → Int → Int → List Certificate × List Certificate
  | [], _, _, _ => ([], [])
  | f :: rest, renewalDays, delayedDays, now =>
    let (tbr, tbi) := get_certs_that_need_action rest renewalDays delayedDays now
    match f with
    | .raw _ => (tbr, tbi)
    | .json s =>
      let r := deserializeCert s
      if needsRenewal renewalDays now r then (r :: tbr, tbi)
      else if needsInstall delayedDays now r then (tbr, r :: tbi)
      else (tbr, tbi)

/-- The records among the store directory's files: each parsable file,
decoded. -/
def validRecords (files : List FileContent) : List Certificate :=
  files.filterMap fun f =>
    match f with
    | .json s => some (deserializeCert s)
    | .raw _ => none

/-! ## Store lemmas -/

/-- Reading back the path just written yields the written value. -/
theorem readFile_writeFile_same (fs : FileSystem) (p : StorePath) (v : FileContent) :
    readFile (writeFile fs p v) p = some v := by
  have hnil : fs.filter (fun f => (f.1 != p) && (f.1 == p)) = [] := by
    apply List.filter_eq_nil_iff.mpr
    intro f _
    by_cases h : f.1 = p <;> simp [h]
  simp [readFile, writeFile, List.filter_append, List.filter_filter, hnil]

/-- Writing unfolded over a cons cell. -/
theorem writeFile_cons (f : StorePath × FileContent) (l : FileSystem)
    (p : StorePath) (v : FileContent) :
    writeFile (f :: l) p v =
      if f.1 != p then f :: writeFile l p v else writeFile l p v := by
  by_cases hf : f.1 = p <;> simp [writeFile, List.filter_cons, hf]

/-- Reading unfolded over a cons cell. -/
theorem readFile_cons (f : StorePath × FileContent) (l : FileSystem) (q : StorePath) :
    readFile (f :: l) q = if f.1 == q then some f.2 else readFile l q := by
  by_cases hq : f.1 = q <;> simp [readFile, List.filter_cons, hq]

/-- Writing one path leaves every other path's contents unchanged. -/
theorem readFile_writeFile_other (fs : FileSystem) (p q : StorePath) (v : FileContent)
    (h : q ≠ p) :
    readFile (writeFile fs p v) q = readFile fs q := by
  induction fs with
  | nil => simp [readFile, writeFile, Ne.symm h]
  | cons f rest ih =>
    rw [writeFile_cons]
    by_cases hf : f.1 = p
    · have h1 : (f.1 != p) = false := by simp [hf]
      have h2 : (f.1 == q) = false := by
        rw [hf]
        exact beq_eq_false_iff_ne.mpr (Ne.symm h)
      rw [h1]
      simp only [Bool.false_eq_true, if_false]
      rw [ih, readFile_cons, h2]
      simp only [Bool.false_eq_true, if_false]
    · have h1 : (f.1 != p) = true := by simp [hf]
      rw [h1]
      simp only [if_true]
      rw [readFile_cons, readFile_cons, ih]

/-! ## C7: save / load round trip -/

/-- Decoding an encoded record gives the record back: the encoder always
writes `validation_method`, so the read-side default never fires. -/
theorem deserialize_serialize (r : Certificate) :
    deserializeCert (serializeCert r) = r := rfl

/-- C7: for every record and every store state, `save()` followed by
`load(partition, name)` reproduces a record equal to the one saved, field for
field. -/
theorem save_then_load_roundtrip (r : Certificate) (fs : FileSystem) :
    Certificate.get (r.save fs) r.partition r.name = .ok r := by
  unfold Certificate.get Certificate.save
  rw [readFile_writeFile_same]
  rfl

/-! ## C8: the renewal trigger -/

/-- C8: for a certificate with not-after time `t` and any non-negative
`days`, `aboutToExpire(days)` holds exactly when `t − now ≤ days`, and it is
false at the boundary minus one unit (`days = t − now − 1`). -/
theorem about_to_expire_boundary (r : Certificate) (t days now : Int)
    (hc : r.notAfter = some t) (_hd : 0 ≤ days) :
    (r.about_to_expire days now = true ↔ t - now ≤ days)
    ∧ r.about_to_expire (t - now - 1) now = false := by
  constructor
  · simp [Certificate.about_to_expire, hc]
  · simp only [Certificate.about_to_expire, hc]
    simp only [decide_eq_false_iff_not]
    omega

/-- The renewal trigger applied, through the general theorem, to a concrete
certificate expiring 10 units from now: a 5-unit window triggers it, and the
boundary-minus-one window (9 units) does not. -/
theorem about_to_expire_witness :
    (Certificate.about_to_expire
        ⟨"Common", "c", "Installed", ["h"], "csr", "http-01",
         some "PEM", [], some 0, some 10⟩ 5 0 = true ↔ (10 : Int) - 0 ≤ 5)
    ∧ Certificate.about_to_expire
        ⟨"Common", "c", "Installed", ["h"], "csr", "http-01",
         some "PEM", [], some 0, some 10⟩ ((10 : Int) - 0 - 1) 0 = false :=
  about_to_expire_boundary _ 10 5 0 rfl (by decide)

/-! ## C5: renewal backs up the previous certificate -/

/-- C5: for every record holding a certificate, `renew(newCert, newChain)`
writes the previous certificate concatenated with its chain to the backup
location determined by `(partition, name)` — replacing whatever an earlier
renewal left there — and the updated record has the new `cert`/`chain`,
status "To be installed", and is persisted at its storage path. -/
theorem renew_backs_up_and_stages (r : Certificate) (fs : FileSystem)
    (newCert : String) (newChain : List String) (oldCert : String)
    (h : r.cert = some oldCert) :
    (r.renew fs newCert newChain).1 =
      { r with cert := some newCert, chain := newChain, status := "To be installed" }
    ∧ readFile (r.renew fs newCert newChain).2 (.backup r.partition r.name) =
        some (.raw (oldCert ++ String.join r.chain))
    ∧ readFile (r.renew fs newCert newChain).2 (.record r.partition r.name) =
        some (.json (serializeCert (r.renew fs newCert newChain).1)) := by
  refine ⟨rfl, ?_, ?_⟩
  · show readFile (Certificate.save _ _) _ = _
    unfold Certificate.save
    rw [readFile_writeFile_other _ _ _ _ (by simp)]
    simp only [Certificate.renew, h]
    exact readFile_writeFile_same _ _ _
  · show readFile (Certificate.save _ _) _ = _
    unfold Certificate.save
    exact readFile_writeFile_same _ _ _

/-- Renewal applied to a concrete installed record: the old PEM and chain
land in the backup slot, overwriting an earlier backup already stored there,
and the record is staged for installation. -/
theorem renew_witness :
    (Certificate.renew
        ⟨"Common", "test_renew", "Installed", ["h"], "csr", "http-01",
         some "OLDPEM", ["OLDCHAIN"], some 0, some 10⟩
        [(.backup "Common" "test_renew", .raw "EARLIER")] "NEWPEM" ["NEWCHAIN"]).1 =
      ⟨"Common", "test_renew", "To be installed", ["h"], "csr", "http-01",
       some "NEWPEM", ["NEWCHAIN"], some 0, some 10⟩
    ∧ readFile (Certificate.renew
        ⟨"Common", "test_renew", "Installed", ["h"], "csr", "http-01",
         some "OLDPEM", ["OLDCHAIN"], some 0, some 10⟩
        [(.backup "Common" "test_renew", .raw "EARLIER")] "NEWPEM" ["NEWCHAIN"]).2
        (.backup "Common" "test_renew") =
      some (.raw ("OLDPEM" ++ String.join ["OLDCHAIN"])) := by
  have h := renew_backs_up_and_stages
    ⟨"Common", "test_renew", "Installed", ["h"], "csr", "http-01",
     some "OLDPEM", ["OLDCHAIN"], some 0, some 10⟩
    [(.backup "Common" "test_renew", .raw "EARLIER")] "NEWPEM" ["NEWCHAIN"]
    "OLDPEM" rfl
  exact ⟨h.1, h.2.1⟩

/-! ## C4: the lifecycle scanner -/

/-- The scanner's two result lists are exactly the matching filters of the
parsable records, in store order. -/
theorem scanner_filters (files : List FileContent) (renewalDays delayedDays now : Int) :
    (get_certs_that_need_action files renewalDays delayedDays now).1 =
      (validRecords files).filter (needsRenewal renewalDays now)
    ∧ (get_certs_that_need_action files renewalDays delayedDays now).2 =
      (validRecords files).filter (needsInstall delayedDays now) := by
  induction files with
  | nil => exact ⟨rfl, rfl⟩
  | cons f rest ih =>
    obtain ⟨ih1, ih2⟩ := ih
    cases f with
    | raw s =>
      simpa [get_certs_that_need_action, validRecords] using And.intro ih1 ih2
    | json s =>
      by_cases h1 : needsRenewal renewalDays now (deserializeCert s)
      · have hstatus : (deserializeCert s).status = "Installed" := by
          have hp := (Bool.and_eq_true _ _).mp h1
          exact beq_iff_eq.mp hp.1
        have h2 : needsInstall delayedDays now (deserializeCert s) = false := by
          simp [needsInstall, hstatus]
        simp [get_certs_that_need_action, validRecords, List.filter_cons, h1, h2, ih1, ih2]
      · simp only [Bool.not_eq_true] at h1
        by_cases h2 : needsInstall delayedDays now (deserializeCert s)
        · simp [get_certs_that_need_action, validRecords, List.filter_cons, h1, h2, ih1, ih2]
        · simp only [Bool.not_eq_true] at h2
          simp [get_certs_that_need_action, validRecords, List.filter_cons, h1, h2, ih1, ih2]

/-- C4: for every store contents, the scanner returns as "to renew" exactly
the parsable records with status "Installed" whose certificate is about to
expire within the renewal window, and as "to install" exactly the parsable
records with status "To be installed" whose certificate is old enough; no
record value is in both lists, and unparsable files are skipped without
failing the scan. -/
theorem scan_partitions_store (files : List FileContent)
    (renewalDays delayedDays now : Int) :
    (get_certs_that_need_action files renewalDays delayedDays now).1 =
      (validRecords files).filter (needsRenewal renewalDays now)
    ∧ (get_certs_that_need_action files renewalDays delayedDays now).2 =
      (validRecords files).filter (needsInstall delayedDays now)
    ∧ (∀ r, r ∈ (get_certs_that_need_action files renewalDays delayedDays now).1 →
        r ∉ (get_certs_that_need_action files renewalDays delayedDays now).2)
    ∧ (∀ s, get_certs_that_need_action (.raw s :: files) renewalDays delayedDays now =
        get_certs_that_need_action files renewalDays delayedDays now) := by
  obtain ⟨h1, h2⟩ := scanner_filters files renewalDays delayedDays now
  refine ⟨h1, h2, fun r hr hri => ?_, fun s => ?_⟩
  · rw [h1] at hr
    rw [h2] at hri
    have hstat1 : r.status = "Installed" := by
      have hp := List.of_mem_filter hr
      simp only [needsRenewal, Bool.and_eq_true, beq_iff_eq] at hp
      exact hp.1
    have hstat2 : r.status = "To be installed" := by
      have hp := List.of_mem_filter hri
      simp only [needsInstall, Bool.and_eq_true, beq_iff_eq] at hp
      exact hp.1
    rw [hstat1] at hstat2
    exact absurd hstat2 (by decide)
  · simp [get_certs_that_need_action]

/-- The scanner run on a concrete store of one installed, expiring record and
one stray unparsable file: the record is in the renewal list and, by the
partition theorem, not in the installation list. -/
theorem scan_witness :
    deserializeCert
        ⟨"Common", "cert_tbr1", "Installed", ["h"], "csr", some "http-01",
         some "PEM", [], some (-2), some 5⟩ ∉
      (get_certs_that_need_action
        [.json ⟨"Common", "cert_tbr1", "Installed", ["h"], "csr", some "http-01",
                some "PEM", [], some (-2), some 5⟩,
         .raw "this is not json"] 12 4 0).2 :=
  (scan_partitions_store
    [.json ⟨"Common", "cert_tbr1", "Installed", ["h"], "csr", some "http-01",
            some "PEM", [], some (-2), some 5⟩,
     .raw "this is not json"] 12 4 0).2.2.1 _ (by decide)

/-! ## C6: the hostname list built at record creation -/

/-- Folding names into an accumulator, appending each name not yet present,
decomposes as the accumulator followed by a deduplicated, order-preserving
selection of the folded names. -/
theorem foldl_insert_spec (sans : List String) :
    ∀ acc : List String, acc.Nodup →
      ∃ t : List String,
        sans.foldl (fun acc h => if acc.contains h then acc else acc ++ [h]) acc = acc ++ t
        ∧ t.Sublist sans
        ∧ (acc ++ t).Nodup
        ∧ ∀ x, x ∈ acc ++ t ↔ x ∈ acc ∨ x ∈ sans := by
  induction sans with
  | nil =>
    intro acc hacc
    exact ⟨[], by simp, List.Sublist.refl _, by simpa using hacc, by simp⟩
  | cons h hs ih =>
    intro acc hacc
    by_cases hc : acc.contains h
    · have hmem : h ∈ acc := by simpa using hc
      obtain ⟨t, ht_eq, ht_sub, ht_nodup, ht_mem⟩ := ih acc hacc
      refine ⟨t, ?_, ht_sub.cons _, ht_nodup, fun x => ?_⟩
      · have hred : (if acc.contains h = true then acc else acc ++ [h]) = acc := by
          rw [hc]
          simp
        rw [List.foldl_cons, hred]
        exact ht_eq
      · rw [ht_mem x]
        constructor
        · rintro (hx | hx)
          · exact Or.inl hx
          · exact Or.inr (List.mem_cons_of_mem _ hx)
        · rintro (hx | hx)
          · exact Or.inl hx
          · rcases List.mem_cons.mp hx with rfl | hx
            · exact Or.inl hmem
            · exact Or.inr hx
    · have hmem : h ∉ acc := by simpa using hc
      have hacc' : (acc ++ [h]).Nodup := by
        simp [List.nodup_append, hacc, hmem]
      obtain ⟨t, ht_eq, ht_sub, ht_nodup, ht_mem⟩ := ih (acc ++ [h]) hacc'
      have hcf : acc.contains h = false := Bool.not_eq_true _ ▸ eq_false_of_ne_true hc
      refine ⟨h :: t, ?_, ht_sub.cons₂ _, ?_, fun x => ?_⟩
      · have hred : (if acc.contains h = true then acc else acc ++ [h]) = acc ++ [h] := by
          rw [hcf]
          simp
        rw [List.foldl_cons, hred, ht_eq, List.append_assoc, List.singleton_append]
      · simpa [List.append_assoc] using ht_nodup
      · have hm := ht_mem x
        simp only [List.mem_append, List.mem_cons, List.mem_singleton,
          List.not_mem_nil, or_false] at hm ⊢
        tauto

/-- C6: for every common name and subject-alternative-name list, the
hostname list has no duplicate entries, is a subsequence of the common name
followed by the SAN entries in their original order (first-seen order
preserved), holds exactly the names occurring among them, and starts with the
common name when one is present. -/
theorem hostnames_nodup_ordered (cn : Option String) (sans : List String) :
    (_get_hostnames cn sans).Nodup
    ∧ (_get_hostnames cn sans).Sublist (cn.toList ++ sans)
    ∧ (∀ x, x ∈ _get_hostnames cn sans ↔ x ∈ cn.toList ++ sans)
    ∧ (∀ c, cn = some c → (_get_hostnames cn sans).head? = some c) := by
  have hnodup_init : (cn.toList : List String).Nodup := by cases cn <;> simp
  obtain ⟨t, ht_eq, ht_sub, ht_nodup, ht_mem⟩ := foldl_insert_spec sans cn.toList hnodup_init
  have heq : _get_hostnames cn sans = cn.toList ++ t := by
    cases cn with
    | none => exact ht_eq
    | some c => exact ht_eq
  refine ⟨?_, ?_, fun x => ?_, fun c hcn => ?_⟩
  · rw [heq]
    exact ht_nodup
  · rw [heq]
    exact ht_sub.append_left cn.toList
  · rw [heq]
    exact (ht_mem x).trans (List.mem_append).symm
  · subst hcn
    rw [heq]
    rfl

/-- The hostname construction of the unit test
`test_new_certificate_commonName_in_san`, through the general theorem: the
common name repeated among the SAN entries leads the list exactly once. -/
theorem hostnames_witness :
    (_get_hostnames (some "common-name") ["san1", "common-name", "san2"]).head? =
      some "common-name" :=
  (hostnames_nodup_ordered (some "common-name") ["san1", "common-name", "san2"]).2.2.2
    "common-name" rfl

/-! ## C10: challenge publication on the device (`LoadBalancer.send_challenge`)

The Big-IP datagroup is modelled as an explicit state: its string-class
members as an association list of record keys and values, plus an optional
injected server fault standing for any failure mode of the device other than
the deterministic "already exists" answer. -/

/-- `n` is a prefix of the second list, on characters. -/
def startsWithChars : List Char → List Char → Bool
  | [], _ => true
  | _ :: _, [] => false
  | a :: n, b :: h => a == b && startsWithChars n h

/-- `n` occurs as a contiguous run inside the second list — the Python
`in` test on strings. -/
def containsChars (n : List Char) : List Char → Bool
  | [] => startsWithChars n []
  | b :: h => startsWithChars n (b :: h) || containsChars n h

/-- The Python substring test `needle in hay`. -/
def strContainsSub (hay needle : String) : Bool :=
  containsChars needle.data hay.data

/-- A list is a prefix of itself followed by anything. -/
theorem startsWithChars_append (n t : List Char) :
    startsWithChars n (n ++ t) = true := by
  induction n with
  | nil => rfl
  | cons a n ih => simp [startsWithChars, ih]

/-- A list occurs inside itself followed by anything. -/
theorem containsChars_self_append (n t : List Char) :
    containsChars n (n ++ t) = true := by
  cases h : n ++ t with
  | nil =>
    have hn : n = [] := (List.append_eq_nil.mp h).1
    subst hn
    rfl
  | cons b bs =>
    have hstep : containsChars n (b :: bs) =
        (startsWithChars n (b :: bs) || containsChars n bs) := rfl
    rw [hstep, ← h, startsWithChars_append]
    rfl

/-- Every string contains its own prefix. -/
theorem strContainsSub_self_append (pre suf : String) :
    strContainsSub (pre ++ suf) pre = true := by
  show containsChars pre.data (pre ++ suf).data = true
  have hdata : (pre ++ suf).data = pre.data ++ suf.data := rfl
  rw [hdata]
  exact containsChars_self_append pre.data suf.data

/-- `path.split("/")` on the character list (Python `str.split` with a
one-character separator). -/
def splitOnSlash : List Char → List (List Char)
  | [] => [[]]
  | c :: rest =>
    let r := splitOnSlash rest
    if c == '/' then [] :: r
    else
      match r with
      | [] => [[c]]
      | seg :: segs => (c :: seg) :: segs

/-- `path.split("/")[-1]` — the last path segment. -/
def lastSegment (p : String) : String :=
  String.mk ((splitOnSlash p.data).getLastD [])

/-- The datagroup record key of `send_challenge` and `remove_challenge`:
`f"{domain}:{shortpath}"` with `shortpath = path.split("/")[-1]`. -/
def challengeKey (domain path : String) : String :=
  domain ++ ":" ++ lastSegment path

/-- A `bigsuds.ServerError`, reduced to the faultstring the code inspects. -/
structure ServerError where
  faultstring : String
deriving DecidableEq, Repr

/-- The datagroup state of the device a `LoadBalancer` handle talks to:
the configured partition and datagroup names, the string-class members as
`(key, value)` pairs, and an optionally injected fault — a server failure of
any cause other than the deterministic duplicate-member answer. -/
structure Device where
  partition : String
  datagroup : String
  members : List (String × String)
  fault : Option String
deriving DecidableEq, Repr

/-- The string `send_challenge` builds to recognise the duplicate-member
fault: `f"The requested class string item (/{partition}/{datagroup} {key})
already exists in partition"`, tested with `in` against the faultstring. -/
def dupCheckMsg (partition dg key : String) : String :=
  "The requested class string item (/" ++ partition ++ "/" ++ dg ++ " " ++ key ++
    ") already exists in partition"

/-- The faultstring the device actually answers for a duplicate member: the
recognised fragment followed by the partition name, as on a real unit. -/
def deviceDupFault (partition dg key : String) : String :=
  dupCheckMsg partition dg key ++ (" " ++ partition ++ ".")

/-- `LocalLB.Class.add_string_class_member`: fails with the injected fault
when one is set; fails with the duplicate-member fault when the key is
already a member; otherwise appends the member with an empty value. -/
def add_string_class_member (d : Device) (key : String) : Except ServerError Device :=
  match d.fault with
  | some f => .error ⟨f⟩
  | none =>
    if (d.members.map Prod.fst).contains key then
      .error ⟨deviceDupFault d.partition d.datagroup key⟩
    else .ok { d with members := d.members ++ [(key, "")] }

/-- `LocalLB.Class.delete_string_class_member`, as `remove_challenge` invokes
it: drops the member with the given key. -/
def delete_string_class_member (d : Device) (key : String) : Device :=
  { d with members := d.members.filter fun m => m.1 != key }

/-- `LocalLB.Class.set_string_class_member_data_value`: sets the value of the
member with the given key. -/
def set_string_class_member_data_value (d : Device) (key value : String) : Device :=
  { d with members := d.members.map fun m => if m.1 == key then (m.1, value) else m }

/-- `LoadBalancer.send_challenge` (`src/bigacme/lb.py`, lines 85–113): build
the record key from the domain and the last path segment; add the member;
when the add fails with a faultstring containing the duplicate-member
fragment, delete the member and add it again; any other server error is
re-raised; finally set the member's value to the challenge string. -/
def send_challenge (d : Device) (domain path string : String) :
    Except ServerError Device :=
  match add_string_class_member d (challengeKey domain path) with
  | .ok d1 => .ok (set_string_class_member_data_value d1 (challengeKey domain path) string)
  | .error e =>
    if strContainsSub e.faultstring
        (dupCheckMsg d.partition d.datagroup (challengeKey domain path)) then
      match add_string_class_member
          (delete_string_class_member d (challengeKey domain path))
          (challengeKey domain path) with
      | .ok d2 =>
        .ok (set_string_class_member_data_value d2 (challengeKey domain path) string)
      | .error e2 => .error e2
    else .error e

/-- After erasing a key, the member list no longer contains it. -/
theorem contains_after_erase (l : List (String × String)) (key : String) :
    (((l.filter fun m => m.1 != key).map Prod.fst).contains key) = false := by
  induction l with
  | nil => rfl
  | cons m l ih =>
    by_cases hm : m.1 = key
    · simp only [List.filter_cons, hm]
      simp only [bne_self_eq_false, Bool.false_eq_true, if_false]
      exact ih
    · have hne : (m.1 != key) = true := by simp [hm]
      simp only [List.filter_cons, hne, if_true, List.map_cons, List.contains_cons]
      simp only [ih, Bool.or_false]
      exact beq_eq_false_iff_ne.mpr fun h => hm h.symm

/-- Setting the value of a key touches nothing in a list the key was erased
from. -/
theorem setValue_skips_erased (l : List (String × String)) (key value : String) :
    ((l.filter fun m => m.1 != key).map
      fun m => if m.1 == key then (m.1, value) else m) =
      l.filter fun m => m.1 != key := by
  induction l with
  | nil => rfl
  | cons m l ih =>
    by_cases hm : m.1 = key
    · simp only [List.filter_cons, hm]
      simp only [bne_self_eq_false, Bool.false_eq_true, if_false]
      exact ih
    · have hne : (m.1 != key) = true := by simp [hm]
      have hbe : (m.1 == key) = false := beq_eq_false_iff_ne.mpr hm
      simp only [List.filter_cons, hne, if_true, List.map_cons, hbe,
        Bool.false_eq_true, if_false]
      rw [ih]

/-- C10: republishing a challenge never fails on a pre-existing record — when
the device holds no injected fault and the record key (the domain joined with
the last path segment) is already a member, `send_challenge` succeeds, the
existing member having been deleted and re-added, and afterwards the record's
value is exactly the newly supplied string; and a server error whose
faultstring does not contain the duplicate-member fragment is re-raised
as-is. -/
theorem send_challenge_republish (d : Device) (domain path s : String)
    (hf : d.fault = none)
    (hk : ((d.members.map Prod.fst).contains (challengeKey domain path)) = true) :
    send_challenge d domain path s =
      .ok { d with members :=
        (d.members.filter fun m => m.1 != challengeKey domain path) ++
          [(challengeKey domain path, s)] }
    ∧ (∀ (d2 : Device) (f : String), d2.fault = some f →
        strContainsSub f (dupCheckMsg d2.partition d2.datagroup
          (challengeKey domain path)) = false →
        send_challenge d2 domain path s = .error ⟨f⟩) := by
  constructor
  · have hadd : add_string_class_member d (challengeKey domain path) =
        .error ⟨deviceDupFault d.partition d.datagroup (challengeKey domain path)⟩ := by
      simp only [add_string_class_member, hf]
      rw [hk]
      simp
    have hcont : strContainsSub
        (deviceDupFault d.partition d.datagroup (challengeKey domain path))
        (dupCheckMsg d.partition d.datagroup (challengeKey domain path)) = true :=
      strContainsSub_self_append _ _
    have hadd2 : add_string_class_member
        (delete_string_class_member d (challengeKey domain path))
        (challengeKey domain path) =
        .ok { d with members :=
          (d.members.filter fun m => m.1 != challengeKey domain path) ++
            [(challengeKey domain path, "")] } := by
      simp only [add_string_class_member, delete_string_class_member, hf]
      rw [contains_after_erase]
      simp
    rw [send_challenge, hadd]
    simp only [hcont, if_true, hadd2]
    unfold set_string_class_member_data_value
    rw [List.map_append, setValue_skips_erased]
    simp
  · intro d2 f hf2 hnc
    have hadd : add_string_class_member d2 (challengeKey domain path) = .error ⟨f⟩ := by
      simp [add_string_class_member, hf2]
    rw [send_challenge, hadd]
    simp [hnc]

/-- Republication exercised on a concrete device: the key
`example.com:token` is already a member with an old value; after
`send_challenge` the surviving members are the untouched record followed by
the republished key holding the new value. -/
theorem send_challenge_witness :
    send_challenge
      ⟨"Common", "acme_dg", [("example.com:token", "oldvalue"), ("other:x", "v")], none⟩
      "example.com" "/.well-known/acme-challenge/token" "newvalue" =
      .ok ⟨"Common", "acme_dg", [("other:x", "v"), ("example.com:token", "newvalue")], none⟩ :=
  ((send_challenge_republish
      ⟨"Common", "acme_dg", [("example.com:token", "oldvalue"), ("other:x", "v")], none⟩
      "example.com" "/.well-known/acme-challenge/token" "newvalue"
      rfl (by decide)).1).trans (by rfl)

end Bigacme
